import Mathlib

/-!
Verification of `src/gemini_webapi/utils/load_browser_cookies.py`.

The module defines a dict `BROWSER_MAPPING` from browser names to the
cookie-reading functions of the external `browser_cookie3` library, and a
function `load_browser_cookies(domain_name, verbose, browser_name)` that
collects cookies from one browser or from all of them into a flat
name-to-value dict, suppressing per-browser failures.

Embedding choices:
- The external readers are modelled by an environment
  `env : String → String → ReaderOutcome` giving, for a mapping key and a
  domain name, the cookies the reader yields before either finishing or
  raising an exception (so an exception raised at call time is the outcome
  with an empty yield list).
- A Python dict keeps insertion order and overwrites the value on an
  existing key in place; `dictInsert` on an association list mirrors that.
- The function result is a `RunState`: the cookie dict, the log entries
  emitted, and the trace of reader invocations `(mapping key, domain name)`
  in order, so that claims about logging and about which readers run with
  which arguments are statable.
-/

/-- A cookie as iterated from a browser_cookie3 cookiejar: the embedding
keeps the two fields the code reads, `cookie.name` and `cookie.value`. -/
structure Cookie where
  name : String
  value : String
deriving DecidableEq, Repr

/-- The exception classes distinguished by the except clauses of
`load_browser_cookies`: `bc3.BrowserCookieError`, `PermissionError`, and
any other `Exception`. -/
inductive ExcClass where
  | browserCookieError
  | permissionError
  | other
deriving DecidableEq, Repr

/-- A raised exception: its class and its string form (what `{e}`
interpolates in the log messages). -/
structure Exc where
  cls : ExcClass
  msg : String
deriving DecidableEq, Repr

/-- Outcome of iterating `cookie_fn(domain_name=domain_name)`: the cookies
yielded, and `none` if iteration completed or `some e` if exception `e`
was raised (after the listed yields). -/
structure ReaderOutcome where
  yielded : List Cookie
  exc : Option Exc
deriving DecidableEq, Repr

/-- Log levels used by the function: `logger.info`, `logger.warning`,
`logger.error`. -/
inductive LogLevel where
  | info
  | warn
  | error
deriving DecidableEq, Repr

/-- One emitted log record. -/
structure LogEntry where
  level : LogLevel
  msg : String
deriving DecidableEq, Repr

/-- The keys of `BROWSER_MAPPING` in insertion order (a Python dict
iterates in insertion order). -/
def BROWSER_MAPPING_keys : List String :=
  ["firefox", "chrome", "chromium", "opera", "opera_gx", "brave", "edge",
   "vivaldi", "safari", "librewolf"]

/-- Replacement of the entry for key `k` by `(k, v)`, leaving other
entries alone (the in-place value update of a Python dict assignment). -/
def overwrite (k v : String) (p : String × String) : String × String :=
  if p.1 == k then (k, v) else p

/-- `cookies[name] = value` on a Python dict: overwrite in place if the
key is present, else append at the end. -/
def dictInsert (d : List (String × String)) (k v : String) :
    List (String × String) :=
  if d.any (fun p => p.1 == k) then
    d.map (overwrite k v)
  else
    d ++ [(k, v)]

/-- `for cookie in ...: cookies[cookie.name] = cookie.value` over the
yielded cookies. -/
def insertCookies (d : List (String × String)) (cs : List Cookie) :
    List (String × String) :=
  cs.foldl (fun d c => dictInsert d c.name c.value) d

/-- Message of `logger.info` when a specific browser raises
`BrowserCookieError`. -/
def bceMsg (browser_name : String) : String :=
  "No cookies found for " ++ browser_name ++ " or browser not installed."

/-- Message of `logger.warning` on `PermissionError`. -/
def permMsg (who : String) (e : String) : String :=
  "Permission denied while trying to load cookies from " ++ who ++ ". " ++ e

/-- Message of `logger.error` on a generic `Exception`. -/
def errMsg (who : String) (e : String) : String :=
  "Error happened while trying to load cookies from " ++ who ++ ". " ++ e

/-- Message of the unconditional `logger.warning` on an invalid browser
name. -/
def invalidMsg (browser_name : String) : String :=
  "Invalid browser name \x27" ++ browser_name ++
    "\x27. Supported names are: " ++
    String.intercalate ", " BROWSER_MAPPING_keys ++
    ". No cookies will be loaded."

/-- Log entries produced for one reader in the all-browsers loop:
`BrowserCookieError` is passed silently, `PermissionError` logs a warning
and any other `Exception` logs an error, each only when `verbose`. -/
def failureLog (verbose : Bool) (who : String) (out : ReaderOutcome) :
    List LogEntry :=
  match out.exc with
  | none => []
  | some e =>
    match e.cls with
    | .browserCookieError => []
    | .permissionError =>
        if verbose then [⟨.warn, permMsg who e.msg⟩] else []
    | .other =>
        if verbose then [⟨.error, errMsg who e.msg⟩] else []

/-- Result of a run: the returned dict, the log entries emitted, and the
trace of reader invocations as (mapping key, domain_name) pairs. -/
structure RunState where
  cookies : List (String × String)
  logs : List LogEntry
  calls : List (String × String)
deriving DecidableEq, Repr

/-- Model of Python `str.lower()` (and of `String.toLower`): lowercase
every character. Written as a map over the character list so that it
evaluates by kernel reduction. -/
def lowerStr (s : String) : String := String.mk (s.data.map Char.toLower)

/-- Python truthiness of the `browser_name : str | None` argument:
`if browser_name:` is false for `None` and for the empty string. -/
def truthy : Option String → Bool
  | none => false
  | some s => !(s == "")

/-- Body of the `for cookie_fn_name, cookie_fn in BROWSER_MAPPING.items()`
loop: invoke the reader, insert its yields, and handle its exception. -/
def allStep (env : String → String → ReaderOutcome) (domain_name : String)
    (verbose : Bool) (s : RunState) (k : String) : RunState :=
  let out := env k domain_name
  { cookies := insertCookies s.cookies out.yielded
    logs := s.logs ++ failureLog verbose k out
    calls := s.calls ++ [(k, domain_name)] }

/-- `load_browser_cookies(domain_name, verbose, browser_name)`, with the
browser_cookie3 readers abstracted as `env`. -/
def load_browser_cookies (env : String → String → ReaderOutcome)
    (domain_name : String) (verbose : Bool) (browser_name : Option String) :
    RunState :=
  if truthy browser_name then
    let bn := browser_name.getD ""
    let bnl := lowerStr bn
    if BROWSER_MAPPING_keys.contains bnl then
      let out := env bnl domain_name
      { cookies := insertCookies [] out.yielded
        logs :=
          match out.exc with
          | none => []
          | some e =>
            match e.cls with
            | .browserCookieError =>
                if verbose then [⟨.info, bceMsg bn⟩] else []
            | .permissionError =>
                if verbose then [⟨.warn, permMsg bn e.msg⟩] else []
            | .other =>
                if verbose then [⟨.error, errMsg bn e.msg⟩] else []
        calls := [(bnl, domain_name)] }
    else
      { cookies := [], logs := [⟨.warn, invalidMsg bn⟩], calls := [] }
  else
    BROWSER_MAPPING_keys.foldl (allStep env domain_name verbose) ⟨[], [], []⟩

/-- All cookies yielded in all-browsers mode, in invocation order. -/
def allYields (env : String → String → ReaderOutcome)
    (domain_name : String) : List Cookie :=
  (BROWSER_MAPPING_keys.map (fun k => (env k domain_name).yielded)).flatten

/-- The cookies actually yielded by the readers the call invokes: the one
selected reader in specific mode, nothing on an invalid name, everything
in all-browsers mode. -/
def invokedYields (env : String → String → ReaderOutcome)
    (domain_name : String) (browser_name : Option String) : List Cookie :=
  if truthy browser_name then
    let bnl := lowerStr (browser_name.getD "")
    if BROWSER_MAPPING_keys.contains bnl then (env bnl domain_name).yielded
    else []
  else
    allYields env domain_name

/-- Value of the last cookie named `n` in a yield sequence, if any: the
value a chain of dict assignments leaves for `n`. -/
def lastValue : List Cookie → String → Option String
  | [], _ => none
  | c :: cs, n =>
    match lastValue cs n with
    | some v => some v
    | none => if c.name == n then some c.value else none

/-- `lastValue` across a list of mapping keys: the value for `n` left by
processing those keys in order (later keys win). -/
def lastValueOverKeys (env : String → String → ReaderOutcome)
    (domain_name : String) (n : String) : List String → Option String
  | [] => none
  | k :: ks =>
    match lastValueOverKeys env domain_name n ks with
    | some v => some v
    | none => lastValue (env k domain_name).yielded n

/-- The mapping keys whose reader yields a cookie named `n`, in mapping
order. -/
def yieldersOf (env : String → String → ReaderOutcome)
    (domain_name : String) (n : String) : List String :=
  BROWSER_MAPPING_keys.filter
    (fun k => (env k domain_name).yielded.any (fun c => c.name == n))

section Lemmas

theorem overwrite_hit (k v : String) (p : String × String) (h : p.1 = k) :
    overwrite k v p = (k, v) := by
  simp [overwrite, h]

theorem overwrite_miss (k v : String) (p : String × String) (h : p.1 ≠ k) :
    overwrite k v p = p := by
  simp [overwrite, h]

theorem lookup_overwrite_of_any (d : List (String × String)) (k v : String)
    (h : d.any (fun p => p.1 == k) = true) :
    (d.map (overwrite k v)).lookup k = some v := by
  induction d with
  | nil => simp at h
  | cons p d ih =>
    simp only [List.any_cons, Bool.or_eq_true, beq_iff_eq] at h
    by_cases hpk : p.1 = k
    · rw [List.map_cons, overwrite_hit k v p hpk]
      simp [List.lookup]
    · rw [List.map_cons, overwrite_miss k v p hpk]
      have hkb : (k == p.1) = false := beq_false_of_ne (fun he => hpk he.symm)
      rw [List.lookup, hkb]
      exact ih (by simpa [hpk] using h)

theorem lookup_overwrite_of_ne (d : List (String × String)) (k v n : String)
    (h : n ≠ k) :
    (d.map (overwrite k v)).lookup n = d.lookup n := by
  induction d with
  | nil => simp
  | cons p d ih =>
    by_cases hpk : p.1 = k
    · have hnp : (n == p.1) = false := beq_false_of_ne (by rw [hpk]; exact h)
      have hnk : (n == k) = false := beq_false_of_ne h
      rw [List.map_cons, overwrite_hit k v p hpk, List.lookup, List.lookup,
        hnp]
      simp only [hnk]
      exact ih
    · rw [List.map_cons, overwrite_miss k v p hpk, List.lookup, List.lookup]
      cases hnp : (n == p.1) with
      | true => rfl
      | false => exact ih

theorem lookup_none_of_not_any (d : List (String × String)) (k : String)
    (h : d.any (fun p => p.1 == k) = false) :
    d.lookup k = none := by
  induction d with
  | nil => simp
  | cons p d ih =>
    simp only [List.any_cons, Bool.or_eq_false_iff, beq_eq_false_iff_ne] at h
    have hkp : (k == p.1) = false :=
      beq_false_of_ne (fun he => h.1 he.symm)
    rw [List.lookup, hkp]
    exact ih (by simpa [beq_eq_false_iff_ne] using h.2)

theorem lookup_append_single (d : List (String × String)) (k v n : String) :
    (d ++ [(k, v)]).lookup n =
      match d.lookup n with
      | some w => some w
      | none => if n = k then some v else none := by
  induction d with
  | nil =>
    by_cases hnk : n = k
    · simp [List.lookup, hnk]
    · simp [List.lookup, beq_false_of_ne hnk, hnk]
  | cons p d ih =>
    rw [List.cons_append, List.lookup, List.lookup]
    cases hnp : (n == p.1) with
    | true => rfl
    | false => exact ih

theorem lookup_dictInsert (d : List (String × String)) (k v n : String) :
    (dictInsert d k v).lookup n = if n = k then some v else d.lookup n := by
  unfold dictInsert
  by_cases hany : d.any (fun p => p.1 == k) = true
  · rw [if_pos hany]
    by_cases hnk : n = k
    · rw [if_pos hnk, hnk]
      exact lookup_overwrite_of_any d k v hany
    · rw [if_neg hnk]
      exact lookup_overwrite_of_ne d k v n hnk
  · rw [if_neg hany, lookup_append_single]
    by_cases hnk : n = k
    · have hd : d.lookup n = none := by
        rw [hnk]
        exact lookup_none_of_not_any d k (Bool.eq_false_iff.mpr hany)
      rw [hd]
    · cases d.lookup n with
      | some w => simp [hnk]
      | none => simp [hnk]

theorem lookup_insertCookies (cs : List Cookie) (d : List (String × String))
    (n : String) :
    (insertCookies d cs).lookup n =
      match lastValue cs n with
      | some v => some v
      | none => d.lookup n := by
  induction cs generalizing d with
  | nil => rfl
  | cons c cs ih =>
    have hstep : insertCookies d (c :: cs)
        = insertCookies (dictInsert d c.name c.value) cs := rfl
    rw [hstep, ih, lastValue]
    cases lastValue cs n with
    | some v => rfl
    | none =>
      rw [lookup_dictInsert]
      by_cases hnc : n = c.name
      · have : (c.name == n) = true := by simp [hnc]
        simp [this, hnc]
      · have : (c.name == n) = false := beq_false_of_ne (fun he => hnc he.symm)
        simp [this, hnc]

theorem foldl_allStep_cookies (env : String → String → ReaderOutcome)
    (dm : String) (v : Bool) (ks : List String) (s : RunState) :
    (ks.foldl (allStep env dm v) s).cookies =
      insertCookies s.cookies (ks.map (fun k => (env k dm).yielded)).flatten := by
  induction ks generalizing s with
  | nil => rfl
  | cons k ks ih =>
    rw [List.foldl_cons, ih]
    show insertCookies (insertCookies s.cookies (env k dm).yielded) _ = _
    rw [List.map_cons, List.flatten_cons]
    unfold insertCookies
    rw [List.foldl_append]

theorem foldl_allStep_logs (env : String → String → ReaderOutcome)
    (dm : String) (v : Bool) (ks : List String) (s : RunState) :
    (ks.foldl (allStep env dm v) s).logs =
      s.logs ++ (ks.map (fun k => failureLog v k (env k dm))).flatten := by
  induction ks generalizing s with
  | nil => simp
  | cons k ks ih =>
    rw [List.foldl_cons, ih]
    show (s.logs ++ failureLog v k (env k dm)) ++ _ = _
    rw [List.map_cons, List.flatten_cons, List.append_assoc]

theorem foldl_allStep_calls (env : String → String → ReaderOutcome)
    (dm : String) (v : Bool) (ks : List String) (s : RunState) :
    (ks.foldl (allStep env dm v) s).calls =
      s.calls ++ ks.map (fun k => (k, dm)) := by
  induction ks generalizing s with
  | nil => simp
  | cons k ks ih =>
    rw [List.foldl_cons, ih]
    show (s.calls ++ [(k, dm)]) ++ _ = _
    rw [List.map_cons, List.append_assoc]
    rfl

theorem lastValue_append (a b : List Cookie) (n : String) :
    lastValue (a ++ b) n =
      match lastValue b n with
      | some v => some v
      | none => lastValue a n := by
  induction a with
  | nil =>
    rw [List.nil_append]
    cases h : lastValue b n with
    | some v => rfl
    | none => rfl
  | cons c a ih =>
    rw [List.cons_append, lastValue, ih, lastValue]
    cases lastValue b n with
    | some v => rfl
    | none => rfl

theorem lastValue_flatten_keys (env : String → String → ReaderOutcome)
    (dm n : String) (ks : List String) :
    lastValue ((ks.map (fun k => (env k dm).yielded)).flatten) n =
      lastValueOverKeys env dm n ks := by
  induction ks with
  | nil => rfl
  | cons k ks ih =>
    rw [List.map_cons, List.flatten_cons, lastValue_append, ih,
      lastValueOverKeys]

theorem lookup_load_all (env : String → String → ReaderOutcome)
    (dm : String) (v : Bool) (n : String) :
    (load_browser_cookies env dm v none).cookies.lookup n =
      lastValueOverKeys env dm n BROWSER_MAPPING_keys := by
  show ((BROWSER_MAPPING_keys.foldl (allStep env dm v) ⟨[], [], []⟩).cookies).lookup n = _
  rw [foldl_allStep_cookies, lookup_insertCookies, lastValue_flatten_keys]
  cases lastValueOverKeys env dm n BROWSER_MAPPING_keys with
  | some v => rfl
  | none => rfl

theorem lastValue_none_iff (cs : List Cookie) (n : String) :
    lastValue cs n = none ↔ cs.any (fun c => c.name == n) = false := by
  induction cs with
  | nil => simp [lastValue]
  | cons c cs ih =>
    rw [lastValue, List.any_cons]
    cases h : lastValue cs n with
    | some v =>
      have : cs.any (fun c => c.name == n) = true := by
        by_contra hne
        have := ih.mpr (Bool.eq_false_iff.mpr hne)
        rw [this] at h
        exact Option.noConfusion h
      simp [this]
    | none =>
      have hcs : cs.any (fun c => c.name == n) = false := ih.mp h
      rw [hcs, Bool.or_false]
      by_cases hc : (c.name == n) = true
      · simp [hc]
      · simp [Bool.eq_false_iff.mpr hc]

theorem lastValueOverKeys_none_iff (env : String → String → ReaderOutcome)
    (dm n : String) (ks : List String) :
    lastValueOverKeys env dm n ks = none ↔
      ks.filter (fun k => (env k dm).yielded.any (fun c => c.name == n)) = [] := by
  induction ks with
  | nil => simp [lastValueOverKeys]
  | cons k ks ih =>
    rw [lastValueOverKeys, List.filter_cons]
    cases h : lastValueOverKeys env dm n ks with
    | some v =>
      have hne : ¬ ks.filter (fun k => (env k dm).yielded.any
          (fun c => c.name == n)) = [] := by
        intro he
        rw [ih.mpr he] at h
        exact Option.noConfusion h
      constructor
      · intro hc; exact Option.noConfusion hc
      · intro hc
        by_cases hk : ((env k dm).yielded.any (fun c => c.name == n)) = true
        · rw [if_pos hk] at hc
          exact absurd hc (by simp)
        · rw [if_neg hk] at hc
          exact absurd hc hne
    | none =>
      have hks := ih.mp h
      rw [hks]
      by_cases hk : ((env k dm).yielded.any (fun c => c.name == n)) = true
      · rw [if_pos hk]
        constructor
        · intro hc
          have := (lastValue_none_iff _ n).mp hc
          rw [this] at hk
          exact Bool.noConfusion hk
        · intro hc; exact absurd hc (by simp)
      · rw [if_neg hk]
        have : lastValue (env k dm).yielded n = none :=
          (lastValue_none_iff _ n).mpr (Bool.eq_false_iff.mpr hk)
        simp [this]

theorem lastValue_of_unique (cs : List Cookie) (n : String) (c : Cookie)
    (huniq : (cs.filter (fun x => x.name == n)).length ≤ 1)
    (hmem : c ∈ cs) (hname : c.name = n) :
    lastValue cs n = some c.value := by
  induction cs with
  | nil => exact absurd hmem (List.not_mem_nil c)
  | cons c0 cs ih =>
    rw [lastValue]
    rcases List.mem_cons.mp hmem with rfl | hmc
    · have hb : (c.name == n) = true := by simp [hname]
      cases h : lastValue cs n with
      | none => simp [hb]
      | some v =>
        exfalso
        have hany : cs.any (fun x => x.name == n) = true := by
          by_contra hne
          rw [(lastValue_none_iff cs n).mpr (Bool.eq_false_iff.mpr hne)] at h
          exact Option.noConfusion h
        rcases List.any_eq_true.mp hany with ⟨x, hx, hxn⟩
        have : 2 ≤ (List.filter (fun x => x.name == n) (c :: cs)).length := by
          rw [List.filter_cons, if_pos hb]
          have : x ∈ cs.filter (fun x => x.name == n) :=
            List.mem_filter.mpr ⟨hx, hxn⟩
          have : 1 ≤ (cs.filter (fun x => x.name == n)).length :=
            List.length_pos.mpr (List.ne_nil_of_mem this)
          simpa using Nat.succ_le_succ this
        omega
    · by_cases h0 : (c0.name == n) = true
      · exfalso
        have hfe : cs.filter (fun x => x.name == n) = [] := by
          have := huniq
          rw [List.filter_cons, if_pos h0] at this
          simp only [List.length_cons] at this
          exact List.length_eq_zero.mp (by omega)
        have : c ∈ cs.filter (fun x => x.name == n) :=
          List.mem_filter.mpr ⟨hmc, by simp [hname]⟩
        rw [hfe] at this
        exact List.not_mem_nil c this
      · have huniq2 : (cs.filter (fun x => x.name == n)).length ≤ 1 := by
          have := huniq
          rwa [List.filter_cons, if_neg h0] at this
        rw [ih huniq2 hmc]

theorem lastValueOverKeys_getLast (env : String → String → ReaderOutcome)
    (dm n : String) (ks : List String) (k : String)
    (hlast : (ks.filter (fun k => (env k dm).yielded.any
      (fun c => c.name == n))).getLast? = some k) :
    lastValueOverKeys env dm n ks = lastValue (env k dm).yielded n := by
  induction ks with
  | nil => exact absurd hlast (by simp)
  | cons k0 ks ih =>
    rw [lastValueOverKeys]
    by_cases h0 : ((env k0 dm).yielded.any (fun c => c.name == n)) = true
    · rw [List.filter_cons, if_pos h0] at hlast
      cases hfe : ks.filter (fun k => (env k dm).yielded.any
          (fun c => c.name == n)) with
      | nil =>
        rw [hfe] at hlast
        have hk : k = k0 := by
          simp only [List.getLast?] at hlast
          exact (Option.some.inj hlast).symm
        have hnone : lastValueOverKeys env dm n ks = none :=
          (lastValueOverKeys_none_iff env dm n ks).mpr hfe
        rw [hnone, hk]
      | cons a l =>
        rw [hfe, List.getLast?_cons_cons] at hlast
        rw [← hfe] at hlast
        have := ih hlast
        cases hv : lastValueOverKeys env dm n ks with
        | some v => rw [hv] at this; rw [← this]
        | none =>
          have := (lastValueOverKeys_none_iff env dm n ks).mp hv
          rw [this] at hfe
          exact List.noConfusion hfe
    · rw [List.filter_cons, if_neg h0] at hlast
      have := ih hlast
      cases hv : lastValueOverKeys env dm n ks with
      | some v => rw [hv] at this; rw [← this]
      | none =>
        rw [hv] at this
        have h0f : lastValue (env k0 dm).yielded n = none :=
          (lastValue_none_iff _ n).mpr (Bool.eq_false_iff.mpr h0)
        rw [h0f, ← this]

theorem cookies_eq_insert_invoked (env : String → String → ReaderOutcome)
    (dm : String) (v : Bool) (bn : Option String) :
    (load_browser_cookies env dm v bn).cookies =
      insertCookies [] (invokedYields env dm bn) := by
  unfold load_browser_cookies invokedYields
  by_cases ht : truthy bn = true
  · rw [if_pos ht, if_pos ht]
    by_cases hc : BROWSER_MAPPING_keys.contains (lowerStr (bn.getD "")) = true
    · rw [if_pos hc, if_pos hc]
    · rw [if_neg hc, if_neg hc]
      rfl
  · rw [if_neg ht, if_neg ht]
    rw [foldl_allStep_cookies]
    rfl

theorem failureLog_false (k : String) (out : ReaderOutcome) :
    failureLog false k out = [] := by
  unfold failureLog
  cases out.exc with
  | none => rfl
  | some e =>
    obtain ⟨cls, msg⟩ := e
    cases cls <;> rfl

theorem foldl_allStep_congr (env1 env2 : String → String → ReaderOutcome)
    (dm : String) (v : Bool) (ks : List String)
    (h : ∀ k ∈ ks, env1 k dm = env2 k dm) (s : RunState) :
    ks.foldl (allStep env1 dm v) s = ks.foldl (allStep env2 dm v) s := by
  induction ks generalizing s with
  | nil => rfl
  | cons k ks ih =>
    rw [List.foldl_cons, List.foldl_cons]
    have hstep : allStep env1 dm v s k = allStep env2 dm v s k := by
      unfold allStep
      rw [h k (List.mem_cons_self k ks)]
    rw [hstep]
    exact ih (fun k' hk' => h k' (List.mem_cons_of_mem k hk')) _

theorem mem_map_overwrite (d : List (String × String)) (k v : String)
    (p : String × String) (h : p ∈ d.map (overwrite k v)) :
    p ∈ d ∨ p = (k, v) := by
  rcases List.mem_map.mp h with ⟨q, hq, rfl⟩
  by_cases h1 : q.1 = k
  · right
    rw [overwrite_hit k v q h1]
  · left
    rw [overwrite_miss k v q h1]
    exact hq

theorem mem_dictInsert (d : List (String × String)) (k v : String)
    (p : String × String) (h : p ∈ dictInsert d k v) :
    p ∈ d ∨ p = (k, v) := by
  unfold dictInsert at h
  by_cases hany : d.any (fun p => p.1 == k) = true
  · rw [if_pos hany] at h
    exact mem_map_overwrite d k v p h
  · rw [if_neg hany] at h
    rcases List.mem_append.mp h with hd | hs
    · exact Or.inl hd
    · right
      simpa using hs

theorem mem_insertCookies (cs : List Cookie) (d : List (String × String))
    (p : String × String) (h : p ∈ insertCookies d cs) :
    p ∈ d ∨ ∃ c ∈ cs, p = (c.name, c.value) := by
  induction cs generalizing d with
  | nil => exact Or.inl h
  | cons c cs ih =>
    have hstep : insertCookies d (c :: cs)
        = insertCookies (dictInsert d c.name c.value) cs := rfl
    rw [hstep] at h
    rcases ih _ h with hd | ⟨c', hc', rfl⟩
    · rcases mem_dictInsert d c.name c.value p hd with hd' | rfl
      · exact Or.inl hd'
      · exact Or.inr ⟨c, List.mem_cons_self c cs, rfl⟩
    · exact Or.inr ⟨c', List.mem_cons_of_mem c hc', rfl⟩

end Lemmas

/-- A concrete reader environment used to instantiate the theorems:
firefox and safari both yield a cookie named session, edge yields one
cookie and then raises `PermissionError`, every other browser raises
`BrowserCookieError`. -/
def envW : String → String → ReaderOutcome := fun k _ =>
  if k == "firefox" then ⟨[⟨"session", "v1"⟩, ⟨"only_ff", "f"⟩], none⟩
  else if k == "safari" then ⟨[⟨"session", "v9"⟩], none⟩
  else if k == "edge" then
    ⟨[⟨"edge_c", "e"⟩], some ⟨.permissionError, "locked profile"⟩⟩
  else ⟨[], some ⟨.browserCookieError, "not installed"⟩⟩

/-- Claim C1: in all-browsers mode, when a cookie name is yielded by more
than one reader, the value kept is the one from the reader appearing
later in BROWSER_MAPPING iteration order; a name yielded by exactly one
reader keeps the value that reader yielded. Stated via the last element of
`yieldersOf`, the mapping keys whose reader yields the name, assuming
each reader yields a given name at most once. -/
theorem c1_later_browser_wins_on_collision
    (env : String → String → ReaderOutcome) (dm : String) (v : Bool)
    (n : String) (k : String) (c : Cookie)
    (huniq : ∀ k' ∈ BROWSER_MAPPING_keys,
      ((env k' dm).yielded.filter (fun x => x.name == n)).length ≤ 1)
    (hlast : (yieldersOf env dm n).getLast? = some k)
    (hmem : c ∈ (env k dm).yielded) (hname : c.name = n) :
    (load_browser_cookies env dm v none).cookies.lookup n = some c.value := by
  have hkmem : k ∈ BROWSER_MAPPING_keys := by
    have := List.mem_of_getLast?_eq_some hlast
    exact (List.mem_filter.mp this).1
  rw [lookup_load_all, lastValueOverKeys_getLast env dm n _ k hlast]
  exact lastValue_of_unique _ n c (huniq k hkmem) hmem hname

/-- Witness for C1: with `envW`, firefox and safari both yield a cookie
named session; safari is later in the mapping order, so its value wins. -/
theorem c1_later_browser_wins_on_collision_witness :
    (load_browser_cookies envW "" true none).cookies.lookup "session"
      = some "v9" := by
  apply c1_later_browser_wins_on_collision envW "" true "session" "safari"
    ⟨"session", "v9"⟩
  · intro k' hk'
    simp only [BROWSER_MAPPING_keys, List.mem_cons, List.not_mem_nil,
      or_false] at hk'
    rcases hk' with rfl | rfl | rfl | rfl | rfl | rfl | rfl | rfl | rfl | rfl
      <;> decide
  · decide
  · decide
  · rfl

/-- Claim C2: in all-browsers mode, failures of some readers do not abort
the run: every cookie yielded by a reader that completed without an
exception still has an entry in the returned dict, whatever the other
readers did. -/
theorem c2_partial_failure_keeps_successful_cookies
    (env : String → String → ReaderOutcome) (dm : String) (v : Bool)
    (k : String) (c : Cookie)
    (hk : k ∈ BROWSER_MAPPING_keys)
    (_hsucc : (env k dm).exc = none)
    (hmem : c ∈ (env k dm).yielded) :
    ∃ val, (load_browser_cookies env dm v none).cookies.lookup c.name
      = some val := by
  rw [lookup_load_all]
  have hany : (env k dm).yielded.any (fun x => x.name == c.name) = true :=
    List.any_eq_true.mpr ⟨c, hmem, by simp⟩
  have hfilter : k ∈ BROWSER_MAPPING_keys.filter
      (fun k' => (env k' dm).yielded.any (fun x => x.name == c.name)) :=
    List.mem_filter.mpr ⟨hk, hany⟩
  have hne : lastValueOverKeys env dm c.name BROWSER_MAPPING_keys ≠ none := by
    intro he
    rw [lastValueOverKeys_none_iff] at he
    rw [he] at hfilter
    exact List.not_mem_nil k hfilter
  cases hvk : lastValueOverKeys env dm c.name BROWSER_MAPPING_keys with
  | some val => exact ⟨val, rfl⟩
  | none => exact absurd hvk hne

/-- Witness for C2: with `envW`, edge raises `PermissionError` and most
browsers raise `BrowserCookieError`, yet the cookie only_ff yielded by
firefox (which succeeded) is present in the result. -/
theorem c2_partial_failure_keeps_successful_cookies_witness :
    ∃ val, (load_browser_cookies envW "" true none).cookies.lookup "only_ff"
      = some val :=
  c2_partial_failure_keeps_successful_cookies envW "" true "firefox"
    ⟨"only_ff", "f"⟩ (by decide) (by decide) (by decide)

/-- Claim C9: the empty string browser_name is equivalent to None, because
the code tests Python truthiness, so both select the all-browsers path
and return the same result. -/
theorem c9_empty_string_same_as_none (env : String → String → ReaderOutcome)
    (dm : String) (v : Bool) :
    load_browser_cookies env dm v (some "") =
      load_browser_cookies env dm v none := rfl

/-- Claim C4: BROWSER_MAPPING has exactly the ten browsers, in insertion
order; in all-browsers mode each of the ten readers is invoked exactly
once (the keys are distinct and the call trace maps over them once), and
each receives the domain_name of the caller unchanged. -/
theorem c4_ten_readers_invoked_once_each
    (env : String → String → ReaderOutcome) (dm : String) (v : Bool) :
    BROWSER_MAPPING_keys = ["firefox", "chrome", "chromium", "opera",
      "opera_gx", "brave", "edge", "vivaldi", "safari", "librewolf"] ∧
    BROWSER_MAPPING_keys.Nodup ∧
    (load_browser_cookies env dm v none).calls =
      BROWSER_MAPPING_keys.map (fun k => (k, dm)) := by
  refine ⟨rfl, by decide, ?_⟩
  show (BROWSER_MAPPING_keys.foldl (allStep env dm v) ⟨[], [], []⟩).calls = _
  rw [foldl_allStep_calls]
  rfl

/-- Claim C5: the result is a flat name-to-value mapping: every entry of
the returned dict is the name and value of some cookie yielded by a
reader this call invoked. -/
theorem c5_entries_come_from_invoked_readers
    (env : String → String → ReaderOutcome) (dm : String) (v : Bool)
    (bn : Option String) (p : String × String)
    (hp : p ∈ (load_browser_cookies env dm v bn).cookies) :
    ∃ c ∈ invokedYields env dm bn, c.name = p.1 ∧ c.value = p.2 := by
  rw [cookies_eq_insert_invoked] at hp
  rcases mem_insertCookies _ [] p hp with hnil | ⟨c, hc, rfl⟩
  · exact absurd hnil (List.not_mem_nil p)
  · exact ⟨c, hc, rfl, rfl⟩

/-- Witness for C5: in specific-browser mode for firefox under `envW`,
the entry (session, v1) of the result comes from a yielded cookie. -/
theorem c5_entries_come_from_invoked_readers_witness :
    ∃ c ∈ invokedYields envW "" (some "firefox"),
      c.name = "session" ∧ c.value = "v1" :=
  c5_entries_come_from_invoked_readers envW "" true (some "firefox")
    ("session", "v1") (by decide)

/-- Claim C6: the function terminates on every input: it returns a result,
obtained in one bounded pass, with at most as many reader invocations as
BROWSER_MAPPING has entries. -/
theorem c6_terminates_with_bounded_calls
    (env : String → String → ReaderOutcome) (dm : String) (v : Bool)
    (bn : Option String) :
    ∃ r, load_browser_cookies env dm v bn = r ∧
      r.calls.length ≤ BROWSER_MAPPING_keys.length := by
  refine ⟨load_browser_cookies env dm v bn, rfl, ?_⟩
  unfold load_browser_cookies
  by_cases ht : truthy bn = true
  · rw [if_pos ht]
    by_cases hc : BROWSER_MAPPING_keys.contains (lowerStr (bn.getD "")) = true
    · rw [if_pos hc]
      show 1 ≤ BROWSER_MAPPING_keys.length
      decide
    · rw [if_neg hc]
      show 0 ≤ BROWSER_MAPPING_keys.length
      decide
  · rw [if_neg ht, foldl_allStep_calls]
    simp

/-- A second concrete environment, agreeing with `envW` on every mapping
key and differing on a name outside the mapping. -/
def envW2 : String → String → ReaderOutcome := fun k dm =>
  if k == "netscape" then ⟨[⟨"x", "y"⟩], none⟩ else envW k dm

/-- Claim C3: the function never propagates a reader exception — it
returns a `RunState` for every outcome combination in both modes — and
per-browser read failures produce no log output when verbose is false,
while in all-browsers mode with verbose true the log is exactly the
per-reader `failureLog` entries, in which `BrowserCookieError` is
silently passed. -/
theorem c3_failures_suppressed_and_logged_per_verbose
    (env : String → String → ReaderOutcome) (dm : String) (bn : Option String)
    (hmode : truthy bn = false ∨ lowerStr (bn.getD "") ∈ BROWSER_MAPPING_keys) :
    (load_browser_cookies env dm false bn).logs = [] ∧
    (load_browser_cookies env dm true none).logs =
      (BROWSER_MAPPING_keys.map (fun k => failureLog true k (env k dm))).flatten := by
  constructor
  · by_cases ht : truthy bn = true
    · have hc : BROWSER_MAPPING_keys.contains (lowerStr (bn.getD "")) = true := by
        rcases hmode with hf | hm
        · rw [ht] at hf
          exact Bool.noConfusion hf
        · exact List.elem_eq_true_of_mem hm
      unfold load_browser_cookies
      rw [if_pos ht, if_pos hc]
      show (match (env (lowerStr (bn.getD "")) dm).exc with
        | none => ([] : List LogEntry)
        | some e =>
          match e.cls with
          | .browserCookieError => if false then [⟨.info, bceMsg (bn.getD "")⟩] else []
          | .permissionError =>
              if false then [⟨.warn, permMsg (bn.getD "") e.msg⟩] else []
          | .other =>
              if false then [⟨.error, errMsg (bn.getD "") e.msg⟩] else []) = []
      cases (env (lowerStr (bn.getD "")) dm).exc with
      | none => rfl
      | some e =>
        obtain ⟨cls, msg⟩ := e
        cases cls <;> rfl
    · unfold load_browser_cookies
      rw [if_neg ht, foldl_allStep_logs]
      simp [failureLog_false]
  · show (BROWSER_MAPPING_keys.foldl (allStep env dm true) ⟨[], [], []⟩).logs = _
    rw [foldl_allStep_logs]
    rfl

/-- Witness for C3 at the concrete environment `envW` in all-browsers
mode: no logs with verbose false, and with verbose true exactly the
failure entries of the readers that raised. -/
theorem c3_failures_suppressed_and_logged_per_verbose_witness :
    (load_browser_cookies envW "" false none).logs = [] ∧
    (load_browser_cookies envW "" true none).logs =
      (BROWSER_MAPPING_keys.map (fun k => failureLog true k (envW k ""))).flatten :=
  c3_failures_suppressed_and_logged_per_verbose envW "" none (Or.inl rfl)

/-- Claim C7: the function has no state between invocations: its whole
result is a function of the arguments and of the outcomes of the invoked
outcomes, so two calls whose readers behave identically on the mapping
keys return equal results. -/
theorem c7_result_determined_by_args_and_outcomes
    (env1 env2 : String → String → ReaderOutcome) (dm : String) (v : Bool)
    (bn : Option String)
    (h : ∀ k ∈ BROWSER_MAPPING_keys, env1 k dm = env2 k dm) :
    load_browser_cookies env1 dm v bn = load_browser_cookies env2 dm v bn := by
  unfold load_browser_cookies
  by_cases ht : truthy bn = true
  · rw [if_pos ht, if_pos ht]
    by_cases hc : BROWSER_MAPPING_keys.contains (lowerStr (bn.getD "")) = true
    · rw [if_pos hc, if_pos hc, h _ (List.mem_of_elem_eq_true hc)]
    · rw [if_neg hc, if_neg hc]
  · rw [if_neg ht, if_neg ht]
    exact foldl_allStep_congr env1 env2 dm v _ h _

/-- Witness for C7: `envW` and `envW2` differ on the name netscape, which
is not a mapping key, and agree on all ten keys, so the two runs have
equal results. -/
theorem c7_result_determined_by_args_and_outcomes_witness :
    load_browser_cookies envW "" true none =
      load_browser_cookies envW2 "" true none := by
  apply c7_result_determined_by_args_and_outcomes
  intro k hk
  simp only [BROWSER_MAPPING_keys, List.mem_cons, List.not_mem_nil,
    or_false] at hk
  rcases hk with rfl | rfl | rfl | rfl | rfl | rfl | rfl | rfl | rfl | rfl
    <;> decide

/-- Claim C8: a non-empty browser_name whose lowercased form is not a
mapping key yields the empty dict, invokes no reader, and logs one
warning listing the supported names (matching happens on the lowercased
name). -/
theorem c8_invalid_browser_name_returns_empty
    (env : String → String → ReaderOutcome) (dm : String) (v : Bool)
    (s : String) (h1 : s ≠ "") (h2 : lowerStr s ∉ BROWSER_MAPPING_keys) :
    (load_browser_cookies env dm v (some s)).cookies = [] ∧
    (load_browser_cookies env dm v (some s)).calls = [] ∧
    (load_browser_cookies env dm v (some s)).logs = [⟨.warn, invalidMsg s⟩] := by
  have ht : truthy (some s) = true := by
    simp [truthy, h1]
  have hc : ¬ BROWSER_MAPPING_keys.contains (lowerStr ((some s).getD "")) = true := by
    intro hcon
    exact h2 (List.mem_of_elem_eq_true hcon)
  unfold load_browser_cookies
  rw [if_pos ht, if_neg hc]
  exact ⟨rfl, rfl, rfl⟩

/-- Witness for C8: netscape is not a supported browser, so the result is
empty, no reader runs, and the single warning lists the ten names. -/
theorem c8_invalid_browser_name_returns_empty_witness :
    (load_browser_cookies envW "" true (some "netscape")).cookies = [] ∧
    (load_browser_cookies envW "" true (some "netscape")).calls = [] ∧
    (load_browser_cookies envW "" true (some "netscape")).logs =
      [⟨.warn, invalidMsg "netscape"⟩] :=
  c8_invalid_browser_name_returns_empty envW "" true "netscape"
    (by decide) (by decide)

/-- Claim C10: verbose affects only logging: the returned dict (and the
readers invoked) are the same with verbose true as with verbose false. -/
theorem c10_verbose_does_not_affect_result
    (env : String → String → ReaderOutcome) (dm : String) (bn : Option String) :
    (load_browser_cookies env dm true bn).cookies =
      (load_browser_cookies env dm false bn).cookies ∧
    (load_browser_cookies env dm true bn).calls =
      (load_browser_cookies env dm false bn).calls := by
  constructor
  · rw [cookies_eq_insert_invoked, cookies_eq_insert_invoked]
  · unfold load_browser_cookies
    by_cases ht : truthy bn = true
    · rw [if_pos ht, if_pos ht]
      by_cases hc : BROWSER_MAPPING_keys.contains (lowerStr (bn.getD "")) = true
      · rw [if_pos hc, if_pos hc]
      · rw [if_neg hc, if_neg hc]
    · rw [if_neg ht, if_neg ht, foldl_allStep_calls, foldl_allStep_calls]

